import Mathlib

/-!
Verification development for the `python_utest` micro test-harness
(`src/python_utest/__init__.py`).

The embedding translates the outcome-relevant behavior of the source:

* `MethodTest.run` (suite iteration, per-test validation, classification),
* `MethodTest.harness` (exception interception, log comparison, and the
  save/install/restore discipline for the module-level `log` binding),
* `MethodTestAdapter.setup` / `run` / `check` (sandbox state, return-value
  and closed-world final-state comparison),
* `MethodTestLogger` and the `error` / `warn` / `info` tagging helpers,
* the suite normalization in `MethodTest.__init__` (severity ordering).

Python values that the harness compares or tests for truthiness are
modelled by the type `V`; exceptions by `Exc` (class identity is modelled
by the class name, the textual representation by the stored `repr`
string).  A test descriptor is modelled as an association list
`TDict` with the same key-lookup access pattern as the Python dict; the
tested method itself and the mocked construction of the sandbox are kept
abstract in the structure `MM`, since the harness treats them as opaque
callables.  Exceptions that escape the harness machinery itself
(AttributeError, TypeError, ValueError, ...) are modelled with `Except PyErr`.

Deep-copy isolation of mutable fixtures (`copy.deepcopy` at
`MethodTestAdapter.run`) is modelled separately on an explicit heap in
namespace `Copying`, and the `log`-binding swap of `MethodTest.harness`
on an explicit binding state in namespace `Envelope`.
-/

namespace PyUTest

/-- A single-quote character, used when rendering Python `repr` strings. -/
def sq : String := String.singleton (Char.ofNat 39)

/-- Python values that the framework compares by value or tests for
truthiness (arguments, attribute values, `returns`, `skip` flags...). -/
inductive V where
  | vint : Int → V
  | vstr : String → V
  | vbool : Bool → V
  | vnone : V
deriving DecidableEq

/-- Python truthiness of a `V` value. -/
def truthyV : V → Bool
  | .vint n => n != 0
  | .vstr s => s != ""
  | .vbool b => b
  | .vnone => false

/-- Python `repr` of a `V` value. -/
def reprV : V → String
  | .vint n => toString n
  | .vstr s => sq ++ s ++ sq
  | .vbool b => if b then "True" else "False"
  | .vnone => "None"

/-- An exception object: `ty` models the identity of its class (distinct
class names denote distinct classes), `rep` models its `repr` text, which
is what `MethodTest.harness` compares. -/
structure Exc where
  ty : String
  rep : String
deriving DecidableEq

/-- A value stored in a test-descriptor dict.  `val` covers plain Python
values, `exc` exception objects (`raises`), `attrs` dicts of attribute
values (`setup`, `final`), `tup` tuples of values (`args`), `strs` lists
of strings (`logs`), and `blob` other opaque objects such as the
callables stored under `mocks`. -/
inductive DVal where
  | val : V → DVal
  | exc : Exc → DVal
  | attrs : List (String × V) → DVal
  | tup : List V → DVal
  | strs : List String → DVal
  | blob : Nat → DVal
deriving DecidableEq

/-- Python truthiness of a descriptor value. -/
def truthyD : DVal → Bool
  | .val v => truthyV v
  | .exc _ => true
  | .attrs l => !l.isEmpty
  | .tup l => !l.isEmpty
  | .strs l => !l.isEmpty
  | .blob _ => true

/-- Python `repr` of a descriptor value (only the cases the claims touch
need to be textually exact; exceptions render as their stored `repr`). -/
def reprD : DVal → String
  | .val v => reprV v
  | .exc e => e.rep
  | .attrs _ => "{...}"
  | .tup _ => "(...)"
  | .strs l => "[" ++ String.intercalate ", " l ++ "]"
  | .blob n => "<object " ++ toString n ++ ">"

/-- A test descriptor: the Python dict, as an association list. -/
abbrev TDict := List (String × DVal)

/-- Dict key lookup (`test[k]` / `test.get(k)`). -/
def lookupD (d : TDict) (k : String) : Option DVal :=
  (d.find? (fun p => p.1 == k)).map Prod.snd

/-- Dict key membership (`k in test`). -/
def containsKey (d : TDict) (k : String) : Bool :=
  (lookupD d k).isSome

/-- A suite entry value: either a descriptor dict, or some non-dict
object (kept as its `repr` text, which is all `MethodTest.run` uses). -/
inductive TDesc where
  | dict : TDict → TDesc
  | nondict : String → TDesc
deriving DecidableEq

/-- A sandbox attribute store (`sandbox.__dict__`). -/
abbrev Attrs := List (String × V)

/-- Attribute lookup in a sandbox dict. -/
def lookupA (a : Attrs) (k : String) : Option V :=
  (a.find? (fun p => p.1 == k)).map Prod.snd

/-- Store one key (Python dict item assignment: replace if present,
else append). -/
def setA (a : Attrs) (k : String) (v : V) : Attrs :=
  if (a.find? (fun p => p.1 == k)).isSome then
    a.map (fun p => if p.1 == k then (p.1, v) else p)
  else
    a ++ [(k, v)]

/-- Python `dict.update`: apply every item of `u` in order. -/
def updateA (a u : Attrs) : Attrs :=
  u.foldl (fun acc kv => setA acc kv.1 kv.2) a

/-- Lexicographic less-or-equal on character lists by code point —
Python string comparison. -/
def strLeL : List Char → List Char → Bool
  | [], _ => true
  | _ :: _, [] => false
  | c :: cs, d :: ds =>
      if c.toNat < d.toNat then true
      else if d.toNat < c.toNat then false
      else strLeL cs ds

/-- Python `<=` on strings: lexicographic by code point. -/
def strLe (a b : String) : Bool :=
  strLeL a.toList b.toList

/-- The key set of a dict, as a canonical sorted duplicate-free list
(Python `sorted(d.viewkeys())`). -/
def canonKeys (a : Attrs) : List String :=
  List.insertionSort (fun x y => strLe x y = true) (a.map Prod.fst).dedup

/-- Comma-join used by the diagnostic messages (`', '.join(...)`). -/
def joinKeys (l : List String) : String :=
  String.intercalate ", " l

/-- The value shortener of `MethodTestAdapter.check` (keeps a trailing
character and appends the length). -/
def shortenC (s : String) (n : Nat) : String :=
  if s.length > n then
    s.take n ++ "..." ++ s.takeRight 1 ++ " (" ++ toString s.length ++ ")"
  else s

/-- The value shortener of `MethodTest.run` for non-dict descriptors
(keeps a trailing character, no length). -/
def shortenR (s : String) (n : Nat) : String :=
  if s.length > n then s.take n ++ "..." ++ s.takeRight 1 else s

/-- Completion marks (`MethodTest.SUCCEEDED` and friends). -/
def SUCCEEDED : Nat := 0

/-- Mark for skipped tests. -/
def SKIPPED : Nat := 1

/-- Mark for failed tests. -/
def FAILED : Nat := 2

/-- Mark for crashed tests. -/
def CRASHED : Nat := 3

/-- `MethodTest.LEVELS`. -/
def LEVELS : String := "XEWIS"

/-- `LEVELS.find(c)` for a single character: its index, or `-1`. -/
def levelFind (c : Char) : Int :=
  if c = 'X' then 0
  else if c = 'E' then 1
  else if c = 'W' then 2
  else if c = 'I' then 3
  else if c = 'S' then 4
  else -1

/-- `MethodTest._tid_level`: `None` for an empty string (a falsy tid),
otherwise the index of the first character in `LEVELS` (or `-1`). -/
def tidLevel (tid : String) : Option Int :=
  match tid.toList with
  | [] => none
  | c :: _ => some (levelFind c)

/-- Python-2 comparison `level < 0` where `level` is `None` or an int
(`None` compares below every int). -/
def lvlNeg : Option Int → Bool
  | none => true
  | some k => k < 0

/-- `MethodTest._level_raises`: `LEVELS[level] in 'XE'`. -/
def levelRaises : Option Int → Bool
  | some k => k == 0 || k == 1
  | none => false

/-- `MethodTest._level_logs`: `LEVELS[level] in 'EWI'`. -/
def levelLogs : Option Int → Bool
  | some k => k == 1 || k == 2 || k == 3
  | none => false

/-- The `error` tagging helper. -/
def error (msg : String) : String := "E: " ++ msg

/-- The `warn` tagging helper. -/
def warn (msg : String) : String := "W: " ++ msg

/-- The `info` tagging helper. -/
def info (msg : String) : String := "I: " ++ msg

/-- Severity of a single call made by the tested method on the logger. -/
inductive LogLvl where
  | lerr
  | lwarn
  | linfo
deriving DecidableEq

/-- What `MethodTestLogger` appends for one call (`error`/`warn`/`info`
applied to the message). -/
def tagCall : LogLvl × String → String
  | (.lerr, m) => error m
  | (.lwarn, m) => warn m
  | (.linfo, m) => info m

/-- The `logged` list of a fresh `MethodTestLogger` after a sequence of
calls. -/
def loggerLogged (calls : List (LogLvl × String)) : List String :=
  calls.map tagCall

/-- Exceptions raised by the framework machinery itself (not by the
tested method). -/
inductive PyErr where
  | typeErr
  | valueErr
  | attrErr
  | assertErr
  | notImplErr
deriving DecidableEq

/-- Abstract model of the tested method together with the synthesized
sandbox construction.  `initAttrs` gives the sandbox `__dict__` produced
by instantiating the synthetic class (stub `__init__` unless a mock is
supplied) from the raw `mocks`, `init_args`, `init_kwargs` descriptor
entries.  `behave` runs the bound method on a sandbox state with the raw
`args`, `kwargs` entries; it yields the calls made on the global `log`,
the sandbox `__dict__` when the call ends, and either a raised exception
or the returned value. -/
structure MM where
  initAttrs : Option DVal → Option DVal → Option DVal → Attrs
  behave : Attrs → Option DVal → Option DVal →
    List (LogLvl × String) × Attrs × Except Exc V

/-- `MethodTestAdapter.setup`: build the sandbox and merge the
deep-copied `setup` attributes into its `__dict__` (a non-dict `setup`
makes the update raise). -/
def adapterSetup (M : MM) (d : TDict) : Except PyErr Attrs :=
  let base := M.initAttrs (lookupD d "mocks") (lookupD d "init_args")
      (lookupD d "init_kwargs")
  match lookupD d "setup" with
  | none => .ok base
  | some (.attrs s) => .ok (updateA base s)
  | some _ => .error .typeErr

/-- One step of the sorted-key attribute comparison loop of
`MethodTestAdapter.check` (first mismatch short-circuits). -/
def attrCheck (sb f : Attrs) : List String → Option String
  | [] => none
  | k :: ks =>
      let av := (lookupA sb k).getD .vnone
      let ev := (lookupA f k).getD .vnone
      if av ≠ ev then
        some ("invalid attribute " ++ k ++ "=" ++ shortenC (reprV av) 100
          ++ ", expected " ++ shortenC (reprV ev) 100)
      else attrCheck sb f ks

/-- The `final` part of `MethodTestAdapter.check`: the sandbox
`__dict__` is compared closed-world against `final` — the key sets must
be equal exactly (the mismatch message lists excess and missing names
sorted alphabetically), then the declared values are compared in sorted
key order (taking `viewkeys` of a non-dict `final` raises). -/
def checkFinal (d : TDict) (sb : Attrs) : Except PyErr (Option String) :=
  match lookupD d "final" with
  | none => .ok none
  | some (.attrs f) =>
      let actual := canonKeys sb
      let expected := canonKeys f
      if actual ≠ expected then
        .ok (some ("invalid attributes set [" ++ joinKeys actual
          ++ "], expected [" ++ joinKeys expected
          ++ "], excessive ["
          ++ joinKeys (actual.filter (fun k => !expected.contains k))
          ++ "], missed ["
          ++ joinKeys (expected.filter (fun k => !actual.contains k))
          ++ "]"))
      else
        .ok (attrCheck sb f expected)
  | some _ => .error .attrErr

/-- `MethodTestAdapter.check`: compare the recorded return value against
`returns` (when declared; reading the never-assigned `self.returns`
raises AttributeError), then compare the sandbox `__dict__` against
`final`. -/
def check (d : TDict) (ret : Option V) (sb : Attrs) :
    Except PyErr (Option String) :=
  match lookupD d "returns" with
  | some rv =>
      match ret with
      | none => .error .attrErr
      | some r =>
          if (match rv with | .val v => r == v | _ => false) then
            checkFinal d sb
          else
            .ok (some ("invalid returns=" ++ reprV r ++ ", expected "
              ++ reprD rv))
  | none => checkFinal d sb

/-- The `logs` comparison at the end of `MethodTest.harness`
(`log.logged != test['logs']`; joining a non-list-of-strings for the
message raises). -/
def postLogs (d : TDict) (calls : List (LogLvl × String)) :
    Except PyErr (Option String) :=
  match lookupD d "logs" with
  | none => .ok none
  | some (.strs l) =>
      if loggerLogged calls ≠ l then
        .ok (some ("different log [" ++ String.intercalate ", " (loggerLogged calls)
          ++ "], expected [" ++ String.intercalate ", " l ++ "]"))
      else .ok none
  | some _ => .error .typeErr

/-- The tail of `MethodTest.harness` after the exception bookkeeping:
`adapter.check()` (a mismatch is returned), then the `logs` comparison,
then success (`None`). -/
def harnessPost (d : TDict) (ret : Option V) (sb : Attrs)
    (calls : List (LogLvl × String)) : Except PyErr (Option String) :=
  match check d ret sb with
  | .error e => .error e
  | .ok (some m) => .ok (some m)
  | .ok none => postLogs d calls

/-- Does a raised exception match the declared `raises` value
(`type(e) is type(test_raises) and repr(e) == repr(test_raises)`)? -/
def excMatch (e : Exc) : Option DVal → Bool
  | some (.exc r) => e.ty == r.ty && e.rep == r.rep
  | _ => false

/-- Python truthiness of `test.get('raises')`. -/
def truthyOptD : Option DVal → Bool
  | none => false
  | some v => truthyD v

/-- `repr(test_raises)` as used in the harness messages. -/
def reprDOpt : Option DVal → String
  | none => "None"
  | some v => reprD v

/-- `MethodTest.harness` (outcome-relevant part; the `log`-binding swap
is modelled in namespace `Envelope`): build the adapter, run the method,
classify a raised or missed exception against `raises`, then run the
post checks. -/
def harness (M : MM) (d : TDict) : Except PyErr (Option String) :=
  let traises := lookupD d "raises"
  match adapterSetup M d with
  | .error e => .error e
  | .ok sb =>
      match M.behave sb (lookupD d "args") (lookupD d "kwargs") with
      | (calls, sbF, .error e) =>
          if !truthyOptD traises then
            .ok (some ("unexpected exception " ++ e.rep))
          else if !excMatch e traises then
            .ok (some ("different exception " ++ e.rep ++ ", expected "
              ++ reprDOpt traises))
          else
            harnessPost d none sbF calls
      | (calls, sbF, .ok r) =>
          if truthyOptD traises then
            .ok (some ("missed exception, expected " ++ reprDOpt traises))
          else
            harnessPost d (some r) sbF calls

/-- One record of the statement (`{tid, mark, msg}`). -/
structure Outcome where
  tid : String
  mark : Nat
  msg : Option String
deriving DecidableEq

/-- Classification of the harness result in `MethodTest.run`
(`if failed:` — a `None` or empty-string result counts as success; a
truthy result is a failure whose message is kept when it is a string). -/
def classify (tid : String) : Option String → Outcome
  | some s => if s ≠ "" then ⟨tid, FAILED, some s⟩ else ⟨tid, SUCCEEDED, none⟩
  | none => ⟨tid, SUCCEEDED, none⟩

/-- The `single` filter of the suite loop
(`if single and single != tid: continue`). -/
def singleOmits (single : Option String) (tid : String) : Bool :=
  match single with
  | some s => s != "" && s != tid
  | none => false

/-- Truthiness of the run-level `skip` argument. -/
def truthyOptV : Option V → Bool
  | none => false
  | some v => truthyV v

/-- The skip message for the whole-suite `skip` argument (kept only when
it is a string). -/
def skipMsgOf : Option V → Option String
  | some (.vstr s) => some s
  | _ => none

/-- Truthiness of the descriptor-level `skip` field
(`'skip' in test and test['skip']`). -/
def skipFieldTruthy (d : TDict) : Bool :=
  match lookupD d "skip" with
  | some v => truthyD v
  | none => false

/-- The skip message for the descriptor-level `skip` field. -/
def skipFieldMsg (d : TDict) : Option String :=
  match lookupD d "skip" with
  | some (.val (.vstr s)) => some s
  | _ => none

/-- The per-test body of the `MethodTest.run` loop: the `single` filter,
the whole-suite skip, tid validation, descriptor-shape validation, the
per-test skip, the `raises`/`returns`/`logs` structural checks by level,
then the harness run and its classification.  Returns `none` when the
test is omitted entirely. -/
def runOne (M : MM) (skip : Option V) (single : Option String)
    (lvl : Option Int) (tid : String) (t : TDesc) :
    Except PyErr (Option Outcome) :=
  if singleOmits single tid = true then .ok none
  else if truthyOptV skip = true then
    .ok (some ⟨tid, SKIPPED, skipMsgOf skip⟩)
  else if lvlNeg lvl = true then
    .ok (some ⟨tid, CRASHED, some ("invalid test identifier " ++ sq ++ tid
      ++ sq ++ ", must be " ++ sq ++ "str" ++ sq ++ " starting with one of "
      ++ sq ++ LEVELS ++ sq)⟩)
  else
    match t with
    | .nondict rep =>
        .ok (some ⟨tid, CRASHED, some ("invalid test descriptor "
          ++ shortenR rep 100 ++ ", must be " ++ sq ++ "dict" ++ sq)⟩)
    | .dict d =>
        if skipFieldTruthy d = true then
          .ok (some ⟨tid, SKIPPED, skipFieldMsg d⟩)
        else if (levelRaises lvl != containsKey d "raises") = true then
          .ok (some ⟨tid, CRASHED, some (sq ++ "raises" ++ sq ++ " is "
            ++ (if containsKey d "raises" then "specified" else "omitted")
            ++ " in test descriptor")⟩)
        else if (containsKey d "raises" && containsKey d "returns") = true then
          .ok (some ⟨tid, CRASHED, some (sq ++ "returns" ++ sq
            ++ " is specified in test descriptor")⟩)
        else if (levelLogs lvl && !containsKey d "logs") = true then
          .ok (some ⟨tid, CRASHED, some (sq ++ "logs" ++ sq
            ++ " is omitted in test descriptor")⟩)
        else
          match harness M d with
          | .error e => .error e
          | .ok failed => .ok (some (classify tid failed))

/-- `self.statement = statement if statement else []`: the statement the
run appends into, and whether it is the externally supplied list object
(a falsy — absent or empty — argument yields a fresh list instead). -/
def initStatement : Option (List Outcome) → List Outcome × Bool
  | none => ([], false)
  | some l => if l.isEmpty then ([], false) else (l, true)

/-- Truthiness of the `single` argument. -/
def singleTruthy : Option String → Bool
  | none => false
  | some s => s != ""

/-- The pre-loop validation of the `single` argument: it must be a
syntactically valid tid, present exactly once in the suite, and its test
must not be individually skipped (membership testing on a non-dict
descriptor raises a TypeError). -/
def singleCheck (suite : List (Option Int × String × TDesc))
    (single : Option String) : Except PyErr Unit :=
  match single with
  | none => .ok ()
  | some s =>
      if s == "" then .ok ()
      else if lvlNeg (tidLevel s) = true then .error .valueErr
      else
        match suite.filter (fun t => t.2.1 == s) with
        | [] => .error .valueErr
        | [(_, _, .dict d)] =>
            if skipFieldTruthy d = true then .error .valueErr else .ok ()
        | [(_, _, .nondict _)] => .error .typeErr
        | _ => .error .assertErr

/-- The suite loop of `MethodTest.run`, appending one record per
considered test. -/
def runLoop (M : MM) (skip : Option V) (single : Option String) :
    List (Option Int × String × TDesc) → List Outcome →
    Except PyErr (List Outcome)
  | [], acc => .ok acc
  | (lvl, tid, t) :: rest, acc =>
      match runOne M skip single lvl tid t with
      | .error e => .error e
      | .ok none => runLoop M skip single rest acc
      | .ok (some o) => runLoop M skip single rest (acc ++ [o])

/-- `MethodTest.run`: bind the statement, reject a truthy `variant`,
reject `skip` together with `single`, validate `single`, then run the
loop.  The boolean reports whether the externally supplied ledger object
is the one the records were appended to. -/
def run (M : MM) (suite : List (Option Int × String × TDesc))
    (statement : Option (List Outcome)) (variant : Bool)
    (skip : Option V) (single : Option String) :
    Except PyErr (List Outcome × Bool) :=
  let st := initStatement statement
  if variant then .error .notImplErr
  else if (truthyOptV skip && singleTruthy single) = true then .error .valueErr
  else
    match singleCheck suite single with
    | .error e => .error e
    | .ok () =>
        match runLoop M skip single suite st.1 with
        | .error e => .error e
        | .ok sts => .ok (sts, st.2)

/-- Python-2 comparison of a `None`-or-int level against another:
`None` orders strictly below every int. -/
def optIntLt : Option Int → Option Int → Bool
  | none, none => false
  | none, some _ => true
  | some _, none => false
  | some a, some b => a < b

/-- The sort key order of `MethodTest.__init__`: Python-2 comparison of
`(level, tid)` pairs, `None` below every int. -/
def keyLe (x y : Option Int × String × TDesc) : Prop :=
  optIntLt x.1 y.1 = true ∨ (x.1 = y.1 ∧ strLe x.2.1 y.2.1 = true)

instance : DecidableRel keyLe := fun x y => by
  unfold keyLe
  exact inferInstance

/-- The suite normalization of `MethodTest.__init__`: pair each tid with
its level and sort by `(level, tid)`. -/
def mkSuite (s : List (String × TDesc)) : List (Option Int × String × TDesc) :=
  List.insertionSort keyLe (s.map (fun p => (tidLevel p.1, p.1, p.2)))

end PyUTest

namespace Envelope

/-!
Model of the `log`-binding swap performed by `MethodTest.harness`
(lines 523-568 of the source): on entry, inside a `try` block guarded by
`except: pass`, it reads `module.log` into `log_saved` and installs the
`MethodTestLogger` double; in the `finally` clause, again guarded by
`except: pass`, it writes `log_saved` back.  When the module has no
`log` binding, the initial read raises, the double is never installed
and `log_saved` stays unbound, so the restoring assignment raises and is
swallowed — the binding is unchanged in that case too.  The binding
state is `Option L`: `none` when the module defines no `log`.
-/

/-- The distinct control-flow exits of `MethodTest.harness`: the sandbox
setup raising, the tested method raising (unexpected, mismatched, or
fully matched), a missed expected exception, the post-checks raising or
reporting a mismatch, a log mismatch, and full success. -/
inductive HPath where
  | setupRaises
  | unexpectedExc
  | diffExc
  | matchedExc
  | missedExc
  | checkRaises
  | checkMismatch
  | logsMismatch
  | success
deriving DecidableEq

/-- The binding after the entry block: the double is installed only when
the saved read succeeded. -/
def install (L : Type) (init : Option L) (double : L) : Option L :=
  match init with
  | some _ => some double
  | none => none

/-- The `finally` clause: write `log_saved` back when it was assigned;
when it never was, the assignment raises and `except: pass` leaves the
current binding. -/
def restore (L : Type) (init cur : Option L) : Option L :=
  match init with
  | some v => some v
  | none => cur

/-- Whether the harness leaves by propagating an exception (the `finally`
clause runs either way). -/
def raisesOut : HPath → Bool
  | .setupRaises => true
  | .checkRaises => true
  | _ => false

/-- One whole harness execution, as seen by the module-level `log`
binding: install on entry, body along one of the exit paths (no body
path rebinds `log`), restore in the `finally` clause. -/
def harnessEnvelope (L : Type) (init : Option L) (double : L) (p : HPath) :
    Option L × Bool :=
  (restore L init (install L init double), raisesOut p)

end Envelope

namespace Copying

/-!
Model of the deep-copy isolation performed by `MethodTestAdapter.run`
(`self.method(self.sandbox, *deepcopy(...), **deepcopy(...))`): mutable
fixtures live on an explicit heap, `copy.deepcopy` is the recursive
copy into freshly allocated objects, and the tested method may mutate
only objects it can reach from the copy it was handed.
-/

/-- A Python value: an immutable literal or a reference to a mutable
object on the heap. -/
inductive PV where
  | litv : Int → PV
  | ref : Nat → PV
deriving DecidableEq

/-- A mutable object: a container of element values. -/
abbrev Obj := List PV

/-- The heap: object number `i` is entry `i`; allocation appends. -/
abbrev Heap := List Obj

/-- References occurring directly in a value. -/
def refsOfVal : PV → List Nat
  | .litv _ => []
  | .ref a => [a]

/-- References occurring directly in an object. -/
def refsOfObj (o : Obj) : List Nat :=
  (o.map refsOfVal).flatten

mutual

/-- `copy.deepcopy` of one value: literals are returned as they are; a
reference is resolved, the object is copied recursively and the copy is
allocated fresh at the end of the heap.  `fuel` bounds the recursion
depth (`none` when it is exhausted or a reference dangles). -/
def dcVal (fuel : Nat) (h : Heap) (v : PV) : Option (Heap × PV) :=
  match v with
  | .litv n => some (h, .litv n)
  | .ref a =>
      match fuel with
      | 0 => none
      | fuel' + 1 =>
          match h[a]? with
          | none => none
          | some o =>
              match dcObj fuel' h o with
              | none => none
              | some (h₁, o') => some (h₁ ++ [o'], .ref h₁.length)
termination_by (fuel, sizeOf v)

/-- Deep copy of the elements of one object, threading the heap. -/
def dcObj (fuel : Nat) (h : Heap) (vs : List PV) : Option (Heap × List PV) :=
  match vs with
  | [] => some (h, [])
  | v :: rest =>
      match dcVal fuel h v with
      | none => none
      | some (h₁, v') =>
          match dcObj fuel h₁ rest with
          | none => none
          | some (h₂, vs') => some (h₂, v' :: vs')
termination_by (fuel, sizeOf vs)

end

/-- The pure value tree read off the heap from a value, to bounded
depth: what the object graph denotes, independent of addresses. -/
inductive Tree where
  | leaf : Int → Tree
  | node : List Tree → Tree

mutual

/-- Read the value tree denoted by a value. -/
def readVal (fuel : Nat) (h : Heap) (v : PV) : Option Tree :=
  match v with
  | .litv n => some (.leaf n)
  | .ref a =>
      match fuel with
      | 0 => none
      | fuel' + 1 =>
          match h[a]? with
          | none => none
          | some o => (readObj fuel' h o).map .node
termination_by (fuel, sizeOf v)

/-- Read the value trees denoted by the elements of one object. -/
def readObj (fuel : Nat) (h : Heap) (vs : List PV) : Option (List Tree) :=
  match vs with
  | [] => some []
  | v :: rest =>
      match readVal fuel h v with
      | none => none
      | some t =>
          match readObj fuel h rest with
          | none => none
          | some ts => some (t :: ts)
termination_by (fuel, sizeOf vs)

end

/-- Every object at index at least `n` refers only to objects with
index in `[n, h.length)` — the freshly copied region is self-contained. -/
def SegClosed (n : Nat) (h : Heap) : Prop :=
  ∀ i o, n ≤ i → h[i]? = some o → ∀ a ∈ refsOfObj o, n ≤ a ∧ a < h.length

/-- Every object below index `n` refers only to objects below `n` (the
original fixture region is closed). -/
def ClosedBelow (n : Nat) (h : Heap) : Prop :=
  ∀ i, i < n → ∀ a ∈ refsOfObj (h[i]?.getD []), a < n

/-- Addresses the tested method can reach from a value it was handed. -/
inductive Reach (h : Heap) : PV → Nat → Prop where
  | here (a : Nat) : Reach h (.ref a) a
  | step (a : Nat) (o : Obj) (v : PV) (b : Nat) :
      h[a]? = some o → v ∈ o → Reach h v b → Reach h (.ref a) b

/-- One execution of the tested method on the stored fixture `v₀` during
a run of the suite: `MethodTestAdapter.run` deep-copies `v₀` and invokes
the method on the copy; the method may rewrite objects it can reach from
the copy and may allocate, but never deallocates. -/
def RunStep (v₀ : PV) (h h₂ : Heap) : Prop :=
  ∃ fuel h₁ v₁,
    dcVal fuel h v₀ = some (h₁, v₁) ∧
    h₁.length ≤ h₂.length ∧
    (∀ i, i < h₁.length → ¬ Reach h₁ v₁ i → h₂[i]? = h₁[i]?)

end Copying

namespace PyUTest

instance {ε α : Type} [DecidableEq ε] [DecidableEq α] : DecidableEq (Except ε α) :=
  fun x y =>
    match x, y with
    | .ok a, .ok b =>
        if h : a = b then .isTrue (by rw [h])
        else .isFalse (fun hc => h (Except.ok.inj hc))
    | .error a, .error b =>
        if h : a = b then .isTrue (by rw [h])
        else .isFalse (fun hc => h (Except.error.inj hc))
    | .ok _, .error _ => .isFalse (fun hc => Except.noConfusion hc)
    | .error _, .ok _ => .isFalse (fun hc => Except.noConfusion hc)

/-- A concrete method model that does nothing: the sandbox keeps the
attributes it was given, nothing is logged, `None` is returned. -/
def mmOk : MM := ⟨fun _ _ _ => [], fun sb _ _ => ([], sb, .ok .vnone)⟩

/-- A concrete method model that raises `e` without touching the sandbox
state. -/
def mmRaise (e : Exc) : MM := ⟨fun _ _ _ => [], fun sb _ _ => ([], sb, .error e)⟩

/-- A concrete exception object. -/
def excV : Exc := ⟨"ValueError", "Error(boom)"⟩

/-- A concrete exception object of a different class carrying the same
message text as `excV`. -/
def excT : Exc := ⟨"TypeError", "Error(boom)"⟩

/-- A concrete descriptor declaring both the expected exception and a
final state the sandbox will not satisfy. -/
def dRaisesFinal : TDict :=
  [("raises", .exc excV), ("final", .attrs [("a", .vint 1)])]

/-- The descriptor keys the framework ever reads (`MethodTest.run`,
`MethodTest.harness`, `MethodTestAdapter`). -/
def recognizedKeys : List String :=
  ["skip", "mocks", "init_args", "init_kwargs", "setup",
   "args", "kwargs", "returns", "raises", "final", "logs"]

end PyUTest

namespace PyUTest

/-- A string that starts with a nonempty literal is nonempty. -/
theorem append_ne_empty {a : String} (b : String) (h : a ≠ "") : a ++ b ≠ "" := by
  intro hc
  apply h
  have hl : (a ++ b).length = a.length + b.length := String.length_append a b
  have h0 : (a ++ b).length = 0 := by rw [hc]; rfl
  have ha : a.length = 0 := by omega
  cases a with
  | mk data =>
      cases data with
      | nil => rfl
      | cons c cs => simp [String.length] at ha

/-- The classification of a harness result never yields `CRASHED`. -/
theorem classify_mark_ne (tid : String) (r : Option String) :
    (classify tid r).mark ≠ CRASHED := by
  cases r with
  | none => simp [classify, SUCCEEDED, CRASHED]
  | some s =>
      by_cases h : s = ""
      · simp [classify, h, SUCCEEDED, CRASHED]
      · simp [classify, h, FAILED, CRASHED]

/-- The classification of a harness result carries the test identifier. -/
theorem classify_tid (tid : String) (r : Option String) :
    (classify tid r).tid = tid := by
  cases r with
  | none => rfl
  | some s =>
      by_cases h : s = ""
      · simp [classify, h]
      · simp [classify, h]

/-- The suite loop only appends: whatever statement it starts from is a
prefix of what it returns. -/
theorem runLoop_extends (M : MM) (skip : Option V) (single : Option String) :
    ∀ (ts : List (Option Int × String × TDesc)) (acc sts : List Outcome),
      runLoop M skip single ts acc = .ok sts → ∃ fresh, sts = acc ++ fresh := by
  intro ts
  induction ts with
  | nil =>
      intro acc sts h
      exact ⟨[], by simpa [runLoop, List.append_nil] using (Except.ok.inj h).symm⟩
  | cons t rest ih =>
      intro acc sts h
      unfold runLoop at h
      rcases t with ⟨lvl, tid, td⟩
      cases hr : runOne M skip single lvl tid td with
      | error e => rw [hr] at h; exact absurd h (by simp)
      | ok o =>
          rw [hr] at h
          cases o with
          | none => exact ih acc sts h
          | some rec =>
              obtain ⟨fresh, hf⟩ := ih (acc ++ [rec]) sts h
              exact ⟨rec :: fresh, by simpa using hf⟩

end PyUTest

/-- C7: for every single test execution by the harness, the module-level
`log` binding visible in the tested method's defining module is restored
to its pre-call value on every exit path of `harness()`, including when
the sandbox setup, the tested method invocation, or the post-checks
raise an exception. -/
theorem C7_log_binding_restored (L : Type) (init : Option L) (double : L)
    (p : Envelope.HPath) :
    (Envelope.harnessEnvelope L init double p).1 = init := by
  cases init <;> rfl

namespace PyUTest

/-- C5 (counterexample): with the run argument `skip=True`, a test whose
tid `"z1"` is invalid is recorded as SKIPPED, not CRASHED — the
whole-suite skip check precedes tid validation, so the claimed
"regardless of run parameters" fails. -/
theorem C5_counterexample :
    run mmOk (mkSuite [("z1", .dict [])]) none false (some (.vbool true)) none
      = .ok ([⟨"z1", SKIPPED, none⟩], false) ∧ SKIPPED ≠ CRASHED := by
  constructor
  · rfl
  · decide

/-- C5 (amended): in every run whose whole-suite `skip` is falsy and in
which the test is not omitted by `single`, a test with an invalid tid is
recorded as CRASHED with a descriptive message, and the tested method is
never executed for it — the outcome is the same for every method model
`M`. -/
theorem C5_amended (M : MM) (skip : Option V) (single : Option String)
    (lvl : Option Int) (tid : String) (t : TDesc)
    (h1 : singleOmits single tid = false)
    (h2 : truthyOptV skip = false)
    (h3 : lvlNeg lvl = true) :
    runOne M skip single lvl tid t
      = .ok (some ⟨tid, CRASHED, some ("invalid test identifier " ++ sq ++ tid
          ++ sq ++ ", must be " ++ sq ++ "str" ++ sq
          ++ " starting with one of " ++ sq ++ LEVELS ++ sq)⟩) := by
  unfold runOne
  rw [h1, h2, h3]
  simp

/-- C5 (witness): the amended statement at the invalid tid `"z1"` of
level `-1`, with no whole-suite skip and no `single` selector. -/
theorem C5_amended_witness :
    singleOmits none "z1" = false ∧ truthyOptV none = false
      ∧ lvlNeg (some (-1)) = true
      ∧ runOne mmOk none none (some (-1)) "z1" (.dict [])
        = .ok (some ⟨"z1", CRASHED, some ("invalid test identifier " ++ sq
            ++ "z1" ++ sq ++ ", must be " ++ sq ++ "str" ++ sq
            ++ " starting with one of " ++ sq ++ LEVELS ++ sq)⟩) :=
  ⟨rfl, rfl, rfl,
    C5_amended mmOk none none (some (-1)) "z1" (.dict []) rfl rfl rfl⟩

end PyUTest

namespace PyUTest

/-- C6 (counterexample): supplying an external, *empty* ledger does not
have the records appended to it — the falsy list is discarded and a
fresh statement is created (second component `false`), exactly as when
no ledger is supplied; a non-empty ledger is extended in place (second
component `true`). -/
theorem C6_counterexample :
    run mmOk (mkSuite [("S", .dict [])]) (some []) false none none
      = .ok ([⟨"S", SUCCEEDED, none⟩], false)
    ∧ run mmOk (mkSuite [("S", .dict [])]) (some [⟨"A", SUCCEEDED, none⟩])
        false none none
      = .ok ([⟨"A", SUCCEEDED, none⟩, ⟨"S", SUCCEEDED, none⟩], true) := by
  constructor
  · rfl
  · rfl

/-- C6 (amended): the base statement of a run is the externally supplied
ledger exactly when that ledger is truthy (non-empty); the run appends
its records after the base, and the externally supplied object is the
one extended (flag `true`) iff a non-empty ledger was passed.  An empty
supplied ledger is treated like an absent one: a fresh statement is
created. -/
theorem C6_amended (M : MM) (suite : List (Option Int × String × TDesc))
    (st? : Option (List Outcome)) (sts : List Outcome) (b : Bool)
    (h : run M suite st? false none none = .ok (sts, b)) :
    (∃ fresh, sts = (initStatement st?).1 ++ fresh)
    ∧ (b = true ↔ ∃ l, st? = some l ∧ l ≠ []) := by
  unfold run at h
  simp only [truthyOptV, singleTruthy, Bool.false_and, singleCheck] at h
  cases hl : runLoop M none none suite (initStatement st?).1 with
  | error e => rw [hl] at h; exact absurd h (by simp)
  | ok sts' =>
      rw [hl] at h
      have hp : sts' = sts ∧ (initStatement st?).2 = b := by
        have := Except.ok.inj h
        exact ⟨congrArg Prod.fst this, congrArg Prod.snd this⟩
      constructor
      · exact hp.1 ▸ runLoop_extends M none none suite _ sts' hl
      · rw [← hp.2]
        cases st? with
        | none => simp [initStatement]
        | some l =>
            cases l with
            | nil => simp [initStatement]
            | cons o os => simp [initStatement]

/-- C6 (witness): the amended statement at a concrete non-empty external
ledger — the run extends it and reports that the external object was
used. -/
theorem C6_amended_witness :
    (∃ fresh, [⟨"A", SUCCEEDED, none⟩, ⟨"S", SUCCEEDED, none⟩]
        = (initStatement (some [(⟨"A", SUCCEEDED, none⟩ : Outcome)])).1 ++ fresh)
    ∧ (true = true ↔ ∃ l, (some [(⟨"A", SUCCEEDED, none⟩ : Outcome)] :
        Option (List Outcome)) = some l ∧ l ≠ []) :=
  C6_amended mmOk (mkSuite [("S", .dict [])])
    (some [⟨"A", SUCCEEDED, none⟩])
    [⟨"A", SUCCEEDED, none⟩, ⟨"S", SUCCEEDED, none⟩] true rfl

end PyUTest

namespace PyUTest

/-- C1 (counterexample): a test declaring `raises` whose method raises a
fully matching exception, but also declaring a `final` state the sandbox
does not satisfy, is recorded FAILED — not SUCCEEDED — because
`harness` still calls `adapter.check()` after the matched exception. -/
theorem C1_counterexample :
    runOne (mmRaise excV) none none (some 0) "X001" (.dict dRaisesFinal)
      = .ok (some ⟨"X001", FAILED,
          some "invalid attributes set [], expected [a], excessive [], missed [a]"⟩)
    ∧ FAILED ≠ SUCCEEDED := by
  constructor
  · rfl
  · decide

/-- C1 (amended): on a full `raises` match the harness performs no
return-value bookkeeping for the exception path, but it does not stop:
it still runs the adapter's post-check (return value and final state)
followed by the log comparison, and any mismatch reported by
`adapter.check()` — in particular an unsatisfied `final` state — is
returned as the failure result instead of `None`. -/
theorem C1_amended (M : MM) (d : TDict) (r e : Exc) (sb sbF : Attrs)
    (calls : List (LogLvl × String))
    (hr : lookupD d "raises" = some (.exc r))
    (hsetup : adapterSetup M d = .ok sb)
    (hb : M.behave sb (lookupD d "args") (lookupD d "kwargs")
      = (calls, sbF, .error e))
    (hty : e.ty = r.ty) (hrep : e.rep = r.rep) :
    harness M d = harnessPost d none sbF calls
    ∧ ∀ m, check d none sbF = .ok (some m) → harness M d = .ok (some m) := by
  have hh : harness M d = harnessPost d none sbF calls := by
    unfold harness
    rw [hr, hsetup]
    simp [hb, truthyOptD, truthyD, excMatch, hty, hrep]
  refine ⟨hh, fun m hm => ?_⟩
  rw [hh]
  unfold harnessPost
  rw [hm]

/-- C1 (witness): the amended statement at a concrete matching raise
with an unsatisfied `final`: the harness returns the final-state
mismatch, not `None`. -/
theorem C1_amended_witness :
    harness (mmRaise excV) dRaisesFinal
      = .ok (some "invalid attributes set [], expected [a], excessive [], missed [a]") :=
  (C1_amended (mmRaise excV) dRaisesFinal excV excV [] [] []
    rfl rfl rfl rfl rfl).2 _ rfl

end PyUTest

namespace PyUTest

/-- When every structural gate passes, the run-loop body executes the
test through the harness and classifies its result. -/
theorem runOne_exec (M : MM) (skip : Option V) (single : Option String)
    (lvl : Option Int) (tid : String) (d : TDict)
    (h1 : singleOmits single tid = false)
    (h2 : truthyOptV skip = false)
    (h3 : lvlNeg lvl = false)
    (h4 : skipFieldTruthy d = false)
    (h5 : (levelRaises lvl != containsKey d "raises") = false)
    (h6 : (containsKey d "raises" && containsKey d "returns") = false)
    (h7 : (levelLogs lvl && !containsKey d "logs") = false) :
    runOne M skip single lvl tid (.dict d)
      = match harness M d with
        | .error e => .error e
        | .ok failed => .ok (some (classify tid failed)) := by
  unfold runOne
  simp [h1, h2, h3, h4, h5, h6, h7]

end PyUTest

namespace PyUTest

/-- A non-empty harness result string classifies as FAILED carrying the
message. -/
theorem classify_of_ne (tid s : String) (h : s ≠ "") :
    classify tid (some s) = ⟨tid, FAILED, some s⟩ := by
  simp [classify, h]

/-- When every structural gate passes and the harness returns normally,
the run-loop body records the classification of the harness result. -/
theorem runOne_exec_ok (M : MM) (skip : Option V) (single : Option String)
    (lvl : Option Int) (tid : String) (d : TDict)
    (h1 : singleOmits single tid = false)
    (h2 : truthyOptV skip = false)
    (h3 : lvlNeg lvl = false)
    (h4 : skipFieldTruthy d = false)
    (h5 : (levelRaises lvl != containsKey d "raises") = false)
    (h6 : (containsKey d "raises" && containsKey d "returns") = false)
    (h7 : (levelLogs lvl && !containsKey d "logs") = false)
    (failed : Option String) (hh : harness M d = .ok failed) :
    runOne M skip single lvl tid (.dict d)
      = .ok (some (classify tid failed)) := by
  rw [runOne_exec M skip single lvl tid d h1 h2 h3 h4 h5 h6 h7, hh]

/-- C2: when a descriptor declares `final`, the final-state check is
closed-world — whenever the sandbox's canonical attribute-key set
differs from the key set of `final` (an attribute present in the sandbox
but absent from `final`, or declared but absent from the sandbox), the
test is recorded FAILED regardless of the stored attribute values, and
the failure message lists the actual, expected, excessive and missed
attribute names sorted alphabetically. -/
theorem C2_final_closed_world (M : MM) (skip : Option V)
    (single : Option String) (k : Int) (tid : String) (d : TDict)
    (f sb sbF : Attrs) (ret : V) (calls : List (LogLvl × String))
    (h1 : singleOmits single tid = false)
    (h2 : truthyOptV skip = false)
    (h3 : lvlNeg (some k) = false)
    (h4 : skipFieldTruthy d = false)
    (hlr : levelRaises (some k) = false)
    (hra : lookupD d "raises" = none)
    (hret : lookupD d "returns" = none)
    (hlg : (levelLogs (some k) && !containsKey d "logs") = false)
    (hsetup : adapterSetup M d = .ok sb)
    (hb : M.behave sb (lookupD d "args") (lookupD d "kwargs")
      = (calls, sbF, .ok ret))
    (hf : lookupD d "final" = some (.attrs f))
    (hne : canonKeys sbF ≠ canonKeys f) :
    runOne M skip single (some k) tid (.dict d)
      = .ok (some ⟨tid, FAILED, some ("invalid attributes set ["
          ++ joinKeys (canonKeys sbF) ++ "], expected ["
          ++ joinKeys (canonKeys f) ++ "], excessive ["
          ++ joinKeys ((canonKeys sbF).filter
              (fun x => !(canonKeys f).contains x))
          ++ "], missed ["
          ++ joinKeys ((canonKeys f).filter
              (fun x => !(canonKeys sbF).contains x))
          ++ "]")⟩)
    ∧ FAILED ≠ SUCCEEDED := by
  have hck : containsKey d "raises" = false := by simp [containsKey, hra]
  have hg5 : (levelRaises (some k) != containsKey d "raises") = false := by
    rw [hlr, hck]; rfl
  have hg6 : (containsKey d "raises" && containsKey d "returns") = false := by
    rw [hck]; rfl
  have m0 : ("invalid attributes set [" : String) ≠ "" := by decide
  have m1 := append_ne_empty (joinKeys (canonKeys sbF)) m0
  have m2 := append_ne_empty "], expected [" m1
  have m3 := append_ne_empty (joinKeys (canonKeys f)) m2
  have m4 := append_ne_empty "], excessive [" m3
  have m5 := append_ne_empty (joinKeys ((canonKeys sbF).filter
      (fun x => !(canonKeys f).contains x))) m4
  have m6 := append_ne_empty "], missed [" m5
  have m7 := append_ne_empty (joinKeys ((canonKeys f).filter
      (fun x => !(canonKeys sbF).contains x))) m6
  have m8 := append_ne_empty "]" m7
  have hh : harness M d = .ok (some ("invalid attributes set ["
      ++ joinKeys (canonKeys sbF) ++ "], expected ["
      ++ joinKeys (canonKeys f) ++ "], excessive ["
      ++ joinKeys ((canonKeys sbF).filter
          (fun x => !(canonKeys f).contains x))
      ++ "], missed ["
      ++ joinKeys ((canonKeys f).filter
          (fun x => !(canonKeys sbF).contains x))
      ++ "]")) := by
    unfold harness
    rw [hra, hsetup]
    simp [hb, truthyOptD, harnessPost, check, hret, checkFinal, hf, hne]
  refine ⟨?_, by decide⟩
  rw [runOne_exec_ok M skip single (some k) tid d h1 h2 h3 h4 hg5 hg6 hlg _ hh,
    classify_of_ne tid _ m8]

/-- C2 (witness): a sandbox holding attributes `a, b` against
`final={a: 0}` — the values of all declared attributes match, yet the
test FAILS with the excess name `b` listed. -/
theorem C2_final_closed_world_witness :
    runOne mmOk none none (some 4) "S001"
      (.dict [("setup", .attrs [("a", .vint 0), ("b", .vint 1)]),
              ("final", .attrs [("a", .vint 0)])])
      = .ok (some ⟨"S001", FAILED,
          some "invalid attributes set [a, b], expected [a], excessive [b], missed []"⟩)
    ∧ FAILED ≠ SUCCEEDED :=
  C2_final_closed_world mmOk none none 4 "S001"
    [("setup", .attrs [("a", .vint 0), ("b", .vint 1)]),
     ("final", .attrs [("a", .vint 0)])]
    [("a", .vint 0)] [("a", .vint 0), ("b", .vint 1)]
    [("a", .vint 0), ("b", .vint 1)] .vnone []
    rfl rfl rfl rfl rfl rfl rfl rfl rfl rfl rfl (by decide)

end PyUTest

namespace PyUTest

/-- C3: when a descriptor declares `raises` and the tested method raises
an exception whose class is not identical to the declared one or whose
`repr` text differs, the test is recorded FAILED with the
different-exception message, never SUCCEEDED — the match demands both
class identity and textual equality. -/
theorem C3_exact_exception_match (M : MM) (skip : Option V)
    (single : Option String) (k : Int) (tid : String) (d : TDict)
    (r e : Exc) (sb sbF : Attrs) (calls : List (LogLvl × String))
    (h1 : singleOmits single tid = false)
    (h2 : truthyOptV skip = false)
    (h3 : lvlNeg (some k) = false)
    (h4 : skipFieldTruthy d = false)
    (hlr : levelRaises (some k) = true)
    (hra : lookupD d "raises" = some (.exc r))
    (hret : containsKey d "returns" = false)
    (hlg : (levelLogs (some k) && !containsKey d "logs") = false)
    (hsetup : adapterSetup M d = .ok sb)
    (hb : M.behave sb (lookupD d "args") (lookupD d "kwargs")
      = (calls, sbF, .error e))
    (hmis : (e.ty == r.ty && e.rep == r.rep) = false) :
    runOne M skip single (some k) tid (.dict d)
      = .ok (some ⟨tid, FAILED,
          some ("different exception " ++ e.rep ++ ", expected " ++ r.rep)⟩)
    ∧ FAILED ≠ SUCCEEDED := by
  have hck : containsKey d "raises" = true := by simp [containsKey, hra]
  have hg5 : (levelRaises (some k) != containsKey d "raises") = false := by
    rw [hlr, hck]; rfl
  have hg6 : (containsKey d "raises" && containsKey d "returns") = false := by
    rw [hck, hret]; rfl
  have m0 : ("different exception " : String) ≠ "" := by decide
  have m1 := append_ne_empty e.rep m0
  have m2 := append_ne_empty ", expected " m1
  have m3 := append_ne_empty r.rep m2
  have hh : harness M d
      = .ok (some ("different exception " ++ e.rep ++ ", expected " ++ r.rep)) := by
    unfold harness
    rw [hra, hsetup]
    simp [hb, truthyOptD, truthyD, excMatch, hmis, reprDOpt, reprD]
  refine ⟨?_, by decide⟩
  rw [runOne_exec_ok M skip single (some k) tid d h1 h2 h3 h4 hg5 hg6 hlg _ hh,
    classify_of_ne tid _ m3]

/-- C3 (witness): the method raises a `TypeError` whose message text is
identical to the declared `ValueError` — same message, different class —
and the test is FAILED, not SUCCEEDED. -/
theorem C3_exact_exception_match_witness :
    runOne (mmRaise excT) none none (some 0) "X001"
      (.dict [("raises", .exc excV)])
      = .ok (some ⟨"X001", FAILED,
          some "different exception Error(boom), expected Error(boom)"⟩)
    ∧ FAILED ≠ SUCCEEDED :=
  C3_exact_exception_match (mmRaise excT) none none 0 "X001"
    [("raises", .exc excV)] excV excT [] [] []
    rfl rfl rfl rfl rfl rfl rfl rfl rfl rfl (by decide)

end PyUTest

namespace PyUTest

/-- C8: for a considered test with a valid tid and a mapping descriptor
that is not skipped, the descriptor fails the raises-field validation
exactly when the presence of `raises` differs from the level
requirement (levels X and E require it, levels W, I, S forbid it); the
mismatch is recorded CRASHED — with a message stating whether `raises`
is specified or omitted — for every method model, so the tested method
is never executed; when presence matches the requirement, this outcome
is never produced. -/
theorem C8_raises_level_validation (skip : Option V)
    (single : Option String) (k : Int) (tid : String) (d : TDict)
    (h1 : singleOmits single tid = false)
    (h2 : truthyOptV skip = false)
    (h3 : lvlNeg (some k) = false)
    (h4 : skipFieldTruthy d = false) :
    (levelRaises (some k) ≠ containsKey d "raises")
    ↔ ∀ M : MM, runOne M skip single (some k) tid (.dict d)
        = .ok (some ⟨tid, CRASHED, some (sq ++ "raises" ++ sq ++ " is "
            ++ (if containsKey d "raises" then "specified" else "omitted")
            ++ " in test descriptor")⟩) := by
  constructor
  · intro hne M
    have hmis : (levelRaises (some k) != containsKey d "raises") = true := by
      rw [bne_iff_ne]; exact hne
    unfold runOne
    simp [h1, h2, h3, h4, hmis]
  · intro hall
    by_contra heq
    have hg5 : (levelRaises (some k) != containsKey d "raises") = false := by
      rw [heq, bne_self_eq_false]
    have h := hall mmOk
    cases hck : containsKey d "raises" with
    | true =>
        cases hg6 : containsKey d "returns" with
        | true =>
            unfold runOne at h
            simp [h1, h2, h3, h4, hg5, hck, hg6] at h
            have hlrt : levelRaises (some k) = true := by rw [heq, hck]
            exact absurd (h hlrt) (by decide)
        | false =>
            cases hg7 : (levelLogs (some k) && !containsKey d "logs") with
            | true =>
                unfold runOne at h
                simp [h1, h2, h3, h4, hg5, hck, hg6, hg7] at h
                have hlrt : levelRaises (some k) = true := by rw [heq, hck]
                exact absurd (h hlrt) (by decide)
            | false =>
                rw [runOne_exec mmOk skip single (some k) tid d h1 h2 h3 h4
                  hg5 (by rw [hck, hg6]; rfl) hg7] at h
                cases hh : harness mmOk d with
                | error e => rw [hh] at h; exact absurd h (by simp)
                | ok failed =>
                    rw [hh] at h
                    have hm := classify_mark_ne tid failed
                    have : (classify tid failed).mark = CRASHED := by
                      have h2 := Except.ok.inj h
                      have h3 := Option.some.inj h2
                      rw [h3]
                    exact hm this
    | false =>
        cases hg7 : (levelLogs (some k) && !containsKey d "logs") with
        | true =>
            unfold runOne at h
            simp [h1, h2, h3, h4, hg5, hck, hg7] at h
            have hlrf : levelRaises (some k) = false := by rw [heq, hck]
            exact absurd (h hlrf) (by decide)
        | false =>
            rw [runOne_exec mmOk skip single (some k) tid d h1 h2 h3 h4
              hg5 (by rw [hck]; rfl) hg7] at h
            cases hh : harness mmOk d with
            | error e => rw [hh] at h; exact absurd h (by simp)
            | ok failed =>
                rw [hh] at h
                have hm := classify_mark_ne tid failed
                have : (classify tid failed).mark = CRASHED := by
                  have h2 := Except.ok.inj h
                  have h3 := Option.some.inj h2
                  rw [h3]
                exact hm this

/-- C8 (witness): a W-level test whose descriptor specifies `raises` is
CRASHED with the specified-variant message, with the method model never
consulted. -/
theorem C8_raises_level_validation_witness :
    singleOmits none "W001" = false ∧ truthyOptV none = false
    ∧ lvlNeg (some 2) = false
    ∧ skipFieldTruthy [("raises", .exc excV)] = false
    ∧ runOne mmOk none none (some 2) "W001"
        (.dict [("raises", .exc excV)])
      = .ok (some ⟨"W001", CRASHED,
          some (sq ++ "raises" ++ sq ++ " is specified in test descriptor")⟩) :=
  ⟨rfl, rfl, rfl, rfl,
    (C8_raises_level_validation none none 2 "W001" [("raises", .exc excV)]
      rfl rfl rfl rfl).mp (by decide) mmOk⟩

end PyUTest

namespace PyUTest

/-- C10: the recorded outcome of a considered test depends on its
descriptor only through the recognized keys — two descriptors that agree
on every recognized key (however they differ on other keys) produce the
same outcome record, for every method model and every run configuration;
in particular an unrecognized key never causes CRASHED. -/
theorem C10_unrecognized_keys_ignored (M : MM) (skip : Option V)
    (single : Option String) (lvl : Option Int) (tid : String)
    (d₁ d₂ : TDict)
    (h : ∀ k ∈ recognizedKeys, lookupD d₁ k = lookupD d₂ k) :
    runOne M skip single lvl tid (.dict d₁)
      = runOne M skip single lvl tid (.dict d₂) := by
  have hskip := h "skip" (by simp [recognizedKeys])
  have hmocks := h "mocks" (by simp [recognizedKeys])
  have hia := h "init_args" (by simp [recognizedKeys])
  have hik := h "init_kwargs" (by simp [recognizedKeys])
  have hsetup := h "setup" (by simp [recognizedKeys])
  have hargs := h "args" (by simp [recognizedKeys])
  have hkw := h "kwargs" (by simp [recognizedKeys])
  have hret := h "returns" (by simp [recognizedKeys])
  have hrai := h "raises" (by simp [recognizedKeys])
  have hfin := h "final" (by simp [recognizedKeys])
  have hlog := h "logs" (by simp [recognizedKeys])
  unfold runOne harness harnessPost adapterSetup check checkFinal postLogs
    containsKey skipFieldTruthy skipFieldMsg
  dsimp only
  rw [hskip, hmocks, hia, hik, hsetup, hargs, hkw, hret, hrai, hfin, hlog]

/-- C10 (witness): a descriptor carrying only an unrecognized key
produces exactly the outcome of the empty descriptor. -/
theorem C10_unrecognized_keys_ignored_witness :
    runOne mmOk none none (some 4) "S001"
      (.dict [("note", .val (.vstr "x"))])
      = runOne mmOk none none (some 4) "S001" (.dict []) :=
  C10_unrecognized_keys_ignored mmOk none none (some 4) "S001"
    [("note", .val (.vstr "x"))] [] (by decide)

end PyUTest

namespace PyUTest

/-- Totality of the code-point comparison on character lists. -/
theorem strLeL_total : ∀ a b : List Char, strLeL a b = true ∨ strLeL b a = true := by
  intro a
  induction a with
  | nil => intro b; left; rfl
  | cons c cs ih =>
      intro b
      cases b with
      | nil => right; rfl
      | cons d ds =>
          by_cases h1 : c.toNat < d.toNat
          · left; simp [strLeL, h1]
          · by_cases h2 : d.toNat < c.toNat
            · right; simp [strLeL, h2]
            · rcases ih ds with h | h
              · left; simp [strLeL, h1, h2, h]
              · right; simp [strLeL, h1, h2, h]

/-- Transitivity of the code-point comparison on character lists. -/
theorem strLeL_trans : ∀ a b c : List Char,
    strLeL a b = true → strLeL b c = true → strLeL a c = true := by
  intro a
  induction a with
  | nil => intro b c _ _; rfl
  | cons x xs ih =>
      intro b c hab hbc
      cases b with
      | nil => simp [strLeL] at hab
      | cons y ys =>
          cases c with
          | nil => simp [strLeL] at hbc
          | cons z zs =>
              have hxy : x.toNat ≤ y.toNat := by
                by_contra hc
                simp [strLeL, Nat.lt_of_not_le hc,
                  Nat.not_lt.mpr (Nat.le_of_lt (Nat.lt_of_not_le hc))] at hab
              have hyz : y.toNat ≤ z.toNat := by
                by_contra hc
                simp [strLeL, Nat.lt_of_not_le hc,
                  Nat.not_lt.mpr (Nat.le_of_lt (Nat.lt_of_not_le hc))] at hbc
              by_cases hxz : x.toNat < z.toNat
              · simp [strLeL, hxz]
              · have hxez : x.toNat = z.toNat := by omega
                have hxey : x.toNat = y.toNat := by omega
                have hyez : y.toNat = z.toNat := by omega
                have htx : strLeL xs ys = true := by
                  simpa [strLeL, hxey] using hab
                have hty : strLeL ys zs = true := by
                  simpa [strLeL, hyez] using hbc
                simpa [strLeL, hxez] using ih ys zs htx hty

/-- Transitivity of the Python-2 `None`-below-int comparison. -/
theorem optIntLt_trans : ∀ a b c : Option Int,
    optIntLt a b = true → optIntLt b c = true → optIntLt a c = true := by
  intro a b c hab hbc
  cases a <;> cases b <;> cases c <;> simp_all [optIntLt]
  omega

instance : IsTotal (Option Int × String × TDesc) keyLe := by
  constructor
  intro x y
  rcases hx : x.1 with _ | a <;> rcases hy : y.1 with _ | b
  · rcases strLeL_total x.2.1.toList y.2.1.toList with h | h
    · exact Or.inl (Or.inr ⟨by rw [hx, hy], h⟩)
    · exact Or.inr (Or.inr ⟨by rw [hx, hy], h⟩)
  · exact Or.inl (Or.inl (by rw [hx, hy]; rfl))
  · exact Or.inr (Or.inl (by rw [hx, hy]; rfl))
  · rcases lt_trichotomy a b with h | h | h
    · exact Or.inl (Or.inl (by rw [hx, hy]; simpa [optIntLt] using h))
    · rcases strLeL_total x.2.1.toList y.2.1.toList with hs | hs
      · exact Or.inl (Or.inr ⟨by rw [hx, hy, h], hs⟩)
      · exact Or.inr (Or.inr ⟨by rw [hx, hy, h], hs⟩)
    · exact Or.inr (Or.inl (by rw [hx, hy]; simpa [optIntLt] using h))

instance : IsTrans (Option Int × String × TDesc) keyLe := by
  constructor
  intro x y z hxy hyz
  rcases hxy with h1 | ⟨e1, t1⟩
  · rcases hyz with h2 | ⟨e2, t2⟩
    · exact Or.inl (optIntLt_trans _ _ _ h1 h2)
    · exact Or.inl (e2 ▸ h1)
  · rcases hyz with h2 | ⟨e2, t2⟩
    · exact Or.inl (e1 ▸ h2)
    · exact Or.inr ⟨e1.trans e2, strLeL_trans _ _ _ t1 t2⟩

end PyUTest

namespace PyUTest

/-- With no `single` selector, the run-loop body never omits a test: it
either propagates a framework error or records exactly one outcome
carrying the test identifier. -/
theorem runOne_tid (M : MM) (skip : Option V) (lvl : Option Int)
    (tid : String) (t : TDesc) :
    (∃ e, runOne M skip none lvl tid t = .error e)
    ∨ ∃ o, runOne M skip none lvl tid t = .ok (some o) ∧ o.tid = tid := by
  unfold runOne
  repeat' split
  all_goals
    first
      | exact Or.inl ⟨_, rfl⟩
      | exact Or.inr ⟨_, rfl, rfl⟩
      | exact Or.inr ⟨_, rfl, classify_tid _ _⟩
      | simp_all [singleOmits]

/-- With no `single` selector, the suite loop records one outcome per
suite entry, in suite order, carrying the entries' tids. -/
theorem runLoop_tids (M : MM) (skip : Option V) :
    ∀ (ts : List (Option Int × String × TDesc)) (acc sts : List Outcome),
      runLoop M skip none ts acc = .ok sts →
      sts.map Outcome.tid = acc.map Outcome.tid ++ ts.map (fun t => t.2.1) := by
  intro ts
  induction ts with
  | nil =>
      intro acc sts h
      have : acc = sts := Except.ok.inj h
      rw [← this]
      simp
  | cons t rest ih =>
      intro acc sts h
      rcases t with ⟨lvl, tid, td⟩
      unfold runLoop at h
      rcases runOne_tid M skip lvl tid td with ⟨e, he⟩ | ⟨o, ho, htid⟩
      · rw [he] at h; exact absurd h (by simp)
      · rw [ho] at h
        have hres := ih (acc ++ [o]) sts h
        simpa [htid] using hres

end PyUTest

namespace PyUTest

/-- C4: the normalized suite built at construction is sorted by the
`(level, tid)` key — severity level of the tid's first character with
`None`/`-1` (invalid or unrecognized) lowest, then X, E, W, I, S, and
code-point-alphabetically by tid within a level — and every run that
completes records exactly one outcome per suite entry in that order, so
the recorded tid sequence equals the sorted suite's tid sequence and two
completed runs record identical statements. -/
theorem C4_suite_ordering (M : MM) (s : List (String × TDesc))
    (skip : Option V) (sts : List Outcome) (b : Bool)
    (h : run M (mkSuite s) none false skip none = .ok (sts, b)) :
    sts.map Outcome.tid = (mkSuite s).map (fun t => t.2.1)
    ∧ List.Sorted keyLe (mkSuite s)
    ∧ ∀ sts' b', run M (mkSuite s) none false skip none = .ok (sts', b')
        → sts' = sts := by
  refine ⟨?_, by unfold mkSuite; exact List.sorted_insertionSort keyLe _, ?_⟩
  · unfold run at h
    simp only [singleTruthy, Bool.and_false, Bool.false_eq_true, if_false,
      singleCheck, initStatement] at h
    cases hl : runLoop M skip none (mkSuite s) [] with
    | error e => rw [hl] at h; exact absurd h (by simp)
    | ok sts2 =>
        rw [hl] at h
        have hp := Except.ok.inj h
        have hsts : sts2 = sts := congrArg Prod.fst hp
        have hres := runLoop_tids M skip (mkSuite s) [] sts2 hl
        rw [hsts] at hres
        simpa using hres
  · intro sts' b' h'
    rw [h] at h'
    exact (congrArg Prod.fst (Except.ok.inj h')).symm

/-- C4 (witness): a three-test suite given in reverse severity order is
recorded as X1, I1, S2 — severity-sorted — by an actual completed run. -/
theorem C4_suite_ordering_witness :
    run mmOk (mkSuite [("S2", .dict []), ("I1", .dict [("logs", .strs [])]),
        ("X1", .dict [("raises", .exc excV)])]) none false none none
      = .ok ([⟨"X1", FAILED, some "missed exception, expected Error(boom)"⟩,
          ⟨"I1", SUCCEEDED, none⟩, ⟨"S2", SUCCEEDED, none⟩], false)
    ∧ [(⟨"X1", FAILED, some "missed exception, expected Error(boom)"⟩ : Outcome),
        ⟨"I1", SUCCEEDED, none⟩, ⟨"S2", SUCCEEDED, none⟩].map Outcome.tid
      = (mkSuite [("S2", .dict []), ("I1", .dict [("logs", .strs [])]),
          ("X1", .dict [("raises", .exc excV)])]).map (fun t => t.2.1)
    ∧ List.Sorted keyLe (mkSuite [("S2", .dict []),
        ("I1", .dict [("logs", .strs [])]),
        ("X1", .dict [("raises", .exc excV)])]) :=
  ⟨rfl,
    (C4_suite_ordering mmOk [("S2", .dict []), ("I1", .dict [("logs", .strs [])]),
      ("X1", .dict [("raises", .exc excV)])] none _ false rfl).1,
    (C4_suite_ordering mmOk [("S2", .dict []), ("I1", .dict [("logs", .strs [])]),
      ("X1", .dict [("raises", .exc excV)])] none _ false rfl).2.1⟩

end PyUTest

namespace Copying

/-- Structural specification of `deepcopy`, by induction on the fuel:
the heap only grows by appended copies; every reference in the copied
value points into the freshly allocated region `[h.length, h'.length)`;
and the freshly-copied region stays self-contained (`SegClosed`). -/
theorem dc_spec : ∀ fuel : Nat,
    (∀ h v h' v', dcVal fuel h v = some (h', v') →
      (∃ ext, h' = h ++ ext)
      ∧ (∀ a ∈ refsOfVal v', h.length ≤ a ∧ a < h'.length)
      ∧ (∀ n, n ≤ h.length → SegClosed n h → SegClosed n h'))
    ∧ (∀ h vs h' vs', dcObj fuel h vs = some (h', vs') →
      (∃ ext, h' = h ++ ext)
      ∧ (∀ a ∈ refsOfObj vs', h.length ≤ a ∧ a < h'.length)
      ∧ (∀ n, n ≤ h.length → SegClosed n h → SegClosed n h')) := by
  intro fuel
  induction fuel with
  | zero =>
      have hval : ∀ h v h' v', dcVal 0 h v = some (h', v') →
          (∃ ext, h' = h ++ ext)
          ∧ (∀ a ∈ refsOfVal v', h.length ≤ a ∧ a < h'.length)
          ∧ (∀ n, n ≤ h.length → SegClosed n h → SegClosed n h') := by
        intro h v h' v' hd
        cases v with
        | litv m =>
            simp only [dcVal] at hd
            obtain ⟨rfl, rfl⟩ := Prod.mk.inj (Option.some.inj hd)
            refine ⟨⟨[], by simp⟩, ?_, fun n _ hs => hs⟩
            intro a ha
            simp [refsOfVal] at ha
        | ref a => simp [dcVal] at hd
      refine ⟨hval, ?_⟩
      have hobj : ∀ vs h h' vs', dcObj 0 h vs = some (h', vs') →
          (∃ ext, h' = h ++ ext)
          ∧ (∀ a ∈ refsOfObj vs', h.length ≤ a ∧ a < h'.length)
          ∧ (∀ n, n ≤ h.length → SegClosed n h → SegClosed n h') := by
        intro vs
        induction vs with
        | nil =>
            intro h h' vs' hd
            simp only [dcObj] at hd
            obtain ⟨rfl, rfl⟩ := Prod.mk.inj (Option.some.inj hd)
            refine ⟨⟨[], by simp⟩, ?_, fun n _ hs => hs⟩
            intro a ha
            simp [refsOfObj] at ha
        | cons v rest ihl =>
            intro h h' vs' hd
            simp only [dcObj] at hd
            cases hv : dcVal 0 h v with
            | none => rw [hv] at hd; simp at hd
            | some pr1 =>
                rcases pr1 with ⟨h₁, v1⟩
                rw [hv] at hd
                dsimp only at hd
                cases hrest : dcObj 0 h₁ rest with
                | none => rw [hrest] at hd; simp at hd
                | some pr2 =>
                    rcases pr2 with ⟨h₂, vs2⟩
                    rw [hrest] at hd
                    dsimp only at hd
                    obtain ⟨rfl, rfl⟩ := Prod.mk.inj (Option.some.inj hd)
                    obtain ⟨⟨ext1, he1⟩, hr1, hs1⟩ := hval h v h₁ v1 hv
                    obtain ⟨⟨ext2, he2⟩, hr2, hs2⟩ := ihl h₁ h₂ vs2 hrest
                    have hlen1 : h.length ≤ h₁.length := by
                      rw [he1]; simp
                    have hlen2 : h₁.length ≤ h₂.length := by
                      rw [he2]; simp
                    refine ⟨⟨ext1 ++ ext2, by rw [he2, he1]; simp⟩, ?_, ?_⟩
                    · intro a ha
                      simp only [refsOfObj, List.map_cons, List.flatten_cons,
                        List.mem_append] at ha
                      rcases ha with ha | ha
                      · obtain ⟨hge, hlt⟩ := hr1 a ha
                        exact ⟨hge, lt_of_lt_of_le hlt hlen2⟩
                      · obtain ⟨hge, hlt⟩ := hr2 a (by
                          simpa [refsOfObj] using ha)
                        exact ⟨le_trans hlen1 hge, hlt⟩
                    · intro n hn hs
                      exact hs2 n (le_trans hn hlen1) (hs1 n hn hs)
      exact fun h vs h' vs' => hobj vs h h' vs'
  | succ m ih =>
      have hval : ∀ h v h' v', dcVal (m + 1) h v = some (h', v') →
          (∃ ext, h' = h ++ ext)
          ∧ (∀ a ∈ refsOfVal v', h.length ≤ a ∧ a < h'.length)
          ∧ (∀ n, n ≤ h.length → SegClosed n h → SegClosed n h') := by
        intro h v h' v' hd
        cases v with
        | litv mm =>
            simp only [dcVal] at hd
            obtain ⟨rfl, rfl⟩ := Prod.mk.inj (Option.some.inj hd)
            refine ⟨⟨[], by simp⟩, ?_, fun n _ hs => hs⟩
            intro a ha
            simp [refsOfVal] at ha
        | ref a =>
            simp only [dcVal] at hd
            cases hga : h[a]? with
            | none => rw [hga] at hd; simp at hd
            | some o =>
                rw [hga] at hd
                dsimp only at hd
                cases hdo : dcObj m h o with
                | none => rw [hdo] at hd; simp at hd
                | some pr =>
                    rcases pr with ⟨h₁, o'⟩
                    rw [hdo] at hd
                    dsimp only at hd
                    obtain ⟨rfl, rfl⟩ := Prod.mk.inj (Option.some.inj hd)
                    obtain ⟨⟨ext1, he1⟩, hr1, hs1⟩ := ih.2 h o h₁ o' hdo
                    have hlen1 : h.length ≤ h₁.length := by
                      rw [he1]; simp
                    refine ⟨⟨ext1 ++ [o'], by rw [he1]; simp⟩, ?_, ?_⟩
                    · intro a2 ha2
                      simp only [refsOfVal, List.mem_singleton] at ha2
                      subst ha2
                      exact ⟨hlen1, by simp⟩
                    · intro n hn hs
                      have hseg1 := hs1 n hn hs
                      intro i oi hni hget a2 ha2
                      by_cases hi : i < h₁.length
                      · rw [List.getElem?_append_left hi] at hget
                        obtain ⟨hge, hlt⟩ := hseg1 i oi hni hget a2 ha2
                        exact ⟨hge, by simp; omega⟩
                      · have hlt2 : i < (h₁ ++ [o']).length := by
                          by_contra hge2
                          rw [List.getElem?_eq_none (by omega)] at hget
                          exact Option.noConfusion hget
                        have hlen_app : (h₁ ++ [o']).length = h₁.length + 1 := by
                          simp
                        have hieq : i = h₁.length := by omega
                        subst hieq
                        rw [List.getElem?_concat_length] at hget
                        obtain rfl := Option.some.inj hget
                        obtain ⟨hge, hlt⟩ := hr1 a2 ha2
                        exact ⟨le_trans hn hge, by simp; omega⟩
      have hobj : ∀ vs h h' vs', dcObj (m + 1) h vs = some (h', vs') →
          (∃ ext, h' = h ++ ext)
          ∧ (∀ a ∈ refsOfObj vs', h.length ≤ a ∧ a < h'.length)
          ∧ (∀ n, n ≤ h.length → SegClosed n h → SegClosed n h') := by
        intro vs
        induction vs with
        | nil =>
            intro h h' vs' hd
            simp only [dcObj] at hd
            obtain ⟨rfl, rfl⟩ := Prod.mk.inj (Option.some.inj hd)
            refine ⟨⟨[], by simp⟩, ?_, fun n _ hs => hs⟩
            intro a ha
            simp [refsOfObj] at ha
        | cons v rest ihl =>
            intro h h' vs' hd
            simp only [dcObj] at hd
            cases hv : dcVal (m + 1) h v with
            | none => rw [hv] at hd; simp at hd
            | some pr1 =>
                rcases pr1 with ⟨h₁, v1⟩
                rw [hv] at hd
                dsimp only at hd
                cases hrest : dcObj (m + 1) h₁ rest with
                | none => rw [hrest] at hd; simp at hd
                | some pr2 =>
                    rcases pr2 with ⟨h₂, vs2⟩
                    rw [hrest] at hd
                    dsimp only at hd
                    obtain ⟨rfl, rfl⟩ := Prod.mk.inj (Option.some.inj hd)
                    obtain ⟨⟨ext1, he1⟩, hr1, hs1⟩ := hval h v h₁ v1 hv
                    obtain ⟨⟨ext2, he2⟩, hr2, hs2⟩ := ihl h₁ h₂ vs2 hrest
                    have hlen1 : h.length ≤ h₁.length := by
                      rw [he1]; simp
                    have hlen2 : h₁.length ≤ h₂.length := by
                      rw [he2]; simp
                    refine ⟨⟨ext1 ++ ext2, by rw [he2, he1]; simp⟩, ?_, ?_⟩
                    · intro a ha
                      simp only [refsOfObj, List.map_cons, List.flatten_cons,
                        List.mem_append] at ha
                      rcases ha with ha | ha
                      · obtain ⟨hge, hlt⟩ := hr1 a ha
                        exact ⟨hge, lt_of_lt_of_le hlt hlen2⟩
                      · obtain ⟨hge, hlt⟩ := hr2 a (by
                          simpa [refsOfObj] using ha)
                        exact ⟨le_trans hlen1 hge, hlt⟩
                    · intro n hn hs
                      exact hs2 n (le_trans hn hlen1) (hs1 n hn hs)
      exact ⟨hval, fun h vs h' vs' => hobj vs h h' vs'⟩

end Copying

namespace Copying

/-- Membership in the references of an object, head element. -/
theorem refs_head (v : PV) (rest : List PV) (a : Nat)
    (ha : a ∈ refsOfVal v) : a ∈ refsOfObj (v :: rest) := by
  simp only [refsOfObj, List.map_cons, List.flatten_cons, List.mem_append]
  exact Or.inl ha

/-- Membership in the references of an object, tail elements. -/
theorem refs_tail (v : PV) (rest : List PV) (a : Nat)
    (ha : a ∈ refsOfObj rest) : a ∈ refsOfObj (v :: rest) := by
  simp only [refsOfObj, List.map_cons, List.flatten_cons, List.mem_append]
  exact Or.inr (by simpa [refsOfObj] using ha)

/-- In a self-contained heap segment, everything reachable from a value
whose references lie in the segment stays at or above the segment
base. -/
theorem reach_ge (n : Nat) (h : Heap) (hs : SegClosed n h) :
    ∀ v b, Reach h v b → (∀ a ∈ refsOfVal v, n ≤ a ∧ a < h.length) → n ≤ b := by
  intro v b hr
  induction hr with
  | here a =>
      intro hv
      exact (hv a (by simp [refsOfVal])).1
  | step a o v2 b2 hget hmem hr2 ih =>
      intro hv
      have hna := hv a (by simp [refsOfVal])
      have hrefs := hs a o hna.1 hget
      apply ih
      intro a2 ha2
      apply hrefs
      exact List.mem_flatten.mpr ⟨refsOfVal v2, List.mem_map_of_mem _ hmem, ha2⟩

/-- Reading a value whose references stay below `n`, in a heap closed
below `n`, only depends on the heap entries below `n`. -/
theorem read_congr : ∀ (fuel n : Nat) (h h₂ : Heap),
    ClosedBelow n h →
    (∀ i, i < n → h₂[i]? = h[i]?) →
    (∀ v, (∀ a ∈ refsOfVal v, a < n) → readVal fuel h₂ v = readVal fuel h v)
    ∧ (∀ vs, (∀ a ∈ refsOfObj vs, a < n) →
        readObj fuel h₂ vs = readObj fuel h vs) := by
  intro fuel
  induction fuel with
  | zero =>
      intro n h h₂ hcb hag
      have hval : ∀ v, (∀ a ∈ refsOfVal v, a < n) →
          readVal 0 h₂ v = readVal 0 h v := by
        intro v hv
        cases v with
        | litv m => simp [readVal]
        | ref a => simp [readVal]
      refine ⟨hval, ?_⟩
      intro vs
      induction vs with
      | nil => intro hv; simp [readObj]
      | cons v rest ihl =>
          intro hv
          have h1 := hval v (fun a ha => hv a (refs_head v rest a ha))
          have h2 := ihl (fun a ha => hv a (refs_tail v rest a ha))
          simp only [readObj, h1, h2]
  | succ m ih =>
      intro n h h₂ hcb hag
      have hval : ∀ v, (∀ a ∈ refsOfVal v, a < n) →
          readVal (m + 1) h₂ v = readVal (m + 1) h v := by
        intro v hv
        cases v with
        | litv mm => simp [readVal]
        | ref a =>
            have han : a < n := hv a (by simp [refsOfVal])
            have hga : h₂[a]? = h[a]? := hag a han
            simp only [readVal, hga]
            cases hgo : h[a]? with
            | none => rfl
            | some o =>
                dsimp only
                have hrefs : ∀ a2 ∈ refsOfObj o, a2 < n := by
                  have hthis := hcb a han
                  rw [hgo] at hthis
                  simpa using hthis
                rw [(ih n h h₂ hcb hag).2 o hrefs]
      refine ⟨hval, ?_⟩
      intro vs
      induction vs with
      | nil => intro hv; simp [readObj]
      | cons v rest ihl =>
          intro hv
          have h1 := hval v (fun a ha => hv a (refs_head v rest a ha))
          have h2 := ihl (fun a ha => hv a (refs_tail v rest a ha))
          simp only [readObj, h1, h2]

/-- Everything the tested method can reach from the deep copy it was
handed lies in the freshly allocated region: at or above the pre-copy
heap length. -/
theorem dc_reach_fresh (fuel : Nat) (h h₁ : Heap) (v₀ v₁ : PV)
    (hd : dcVal fuel h v₀ = some (h₁, v₁)) :
    ∀ b, Reach h₁ v₁ b → h.length ≤ b := by
  obtain ⟨⟨ext, hext⟩, hrefs, hseg⟩ := (dc_spec fuel).1 h v₀ h₁ v₁ hd
  have hsc : SegClosed h.length h₁ := by
    apply hseg h.length le_rfl
    intro i o hi hget a ha
    exfalso
    have hnone : h[i]? = none := List.getElem?_eq_none hi
    rw [hnone] at hget
    exact Option.noConfusion hget
  intro b hr
  exact reach_ge h.length h₁ hsc v₁ b hr hrefs

/-- One deep-copy-and-mutate run preserves the heap below the original
fixture region and never shrinks the heap. -/
theorem runStep_inv (v₀ : PV) (h₀ : Heap) :
    ∀ h h₂ : Heap, RunStep v₀ h h₂ →
      (h₀.length ≤ h.length ∧ (∀ i, i < h₀.length → h[i]? = h₀[i]?)) →
      (h₀.length ≤ h₂.length ∧ (∀ i, i < h₀.length → h₂[i]? = h₀[i]?)) := by
  intro h h₂ hstep hprev
  obtain ⟨fuel, h₁, v₁, hd, hlen, hmut⟩ := hstep
  obtain ⟨hl, hag⟩ := hprev
  obtain ⟨⟨ext, hext⟩, hrefs, hseg⟩ := (dc_spec fuel).1 h v₀ h₁ v₁ hd
  have hlen1 : h.length ≤ h₁.length := by rw [hext]; simp
  have hreach := dc_reach_fresh fuel h h₁ v₀ v₁ hd
  refine ⟨by omega, ?_⟩
  intro i hi
  have hi1 : i < h₁.length := by omega
  have hnr : ¬ Reach h₁ v₁ i := by
    intro hr
    have := hreach i hr
    omega
  rw [hmut i hi1 hnr, hext, List.getElem?_append_left (by omega)]
  exact hag i hi

end Copying

/-- C9: the tested method is invoked on a deep copy of the fixture
stored in the descriptor (`deepcopy` at `MethodTestAdapter.run`), so any
number of runs, each of which deep-copies the stored value `v₀` and then
mutates only objects reachable from its copy (allocating freely, never
deallocating), leaves the value tree of the object held by the original
descriptor unchanged: reading `v₀` in the final heap gives exactly what
it gave in the original heap, at every depth. -/
theorem C9_deepcopy_isolation (h₀ : Copying.Heap) (v₀ : Copying.PV)
    {hN : Copying.Heap}
    (hcl : Copying.ClosedBelow h₀.length h₀)
    (hv : ∀ a ∈ Copying.refsOfVal v₀, a < h₀.length)
    (hs : Relation.ReflTransGen (Copying.RunStep v₀) h₀ hN) :
    ∀ fuel, Copying.readVal fuel hN v₀ = Copying.readVal fuel h₀ v₀ := by
  have hinv : h₀.length ≤ hN.length
      ∧ (∀ i, i < h₀.length → hN[i]? = h₀[i]?) := by
    induction hs with
    | refl => exact ⟨le_rfl, fun i _ => rfl⟩
    | tail h1 h2 ih => exact Copying.runStep_inv v₀ h₀ _ _ h2 ih
  intro fuel
  exact (Copying.read_congr fuel h₀.length h₀ hN hcl hinv.2).1 v₀ hv

/-- C9 (witness): one run on the one-object heap `[[1]]` — the copy is
allocated at index 1, the method overwrites the copy with `[99]`, and
the original object at index 0 still reads as `[1]`. -/
theorem C9_deepcopy_isolation_witness :
    Copying.readVal 3 [[Copying.PV.litv 1], [Copying.PV.litv 99]]
        (.ref 0)
      = Copying.readVal 3 [[Copying.PV.litv 1]] (.ref 0) :=
  C9_deepcopy_isolation [[Copying.PV.litv 1]] (.ref 0)
    (by
      intro i hi a ha
      have hb : i < 1 := by simpa using hi
      interval_cases i
      simp [Copying.refsOfObj, Copying.refsOfVal] at ha)
    (by decide)
    (Relation.ReflTransGen.single
      ⟨2, [[Copying.PV.litv 1], [Copying.PV.litv 1]], .ref 1,
        by simp [Copying.dcVal, Copying.dcObj],
        by decide,
        by
          intro i hi hnr
          have hb : i < 2 := by simpa using hi
          interval_cases i
          · rfl
          · exact absurd (Copying.Reach.here 1) hnr⟩)
    3
